import Mathlib

/-!
Verification of the kidney-health self-assessment wizard
(`src/App.tsx`, `src/components/ResultScreen.tsx`).

JavaScript strings are modelled as Lean `String` except in the report
encoder, where they are lists of Unicode code points (`List Nat`) so that
UTF-8 and Base64 transforms can be stated byte by byte.  A JavaScript
object used as a string-keyed map (`AssessmentData`) is modelled as a
function `String → Option String`, `none` standing for a missing key.
-/

namespace KauveryNalam

/-- JavaScript truthiness of an optional string: `undefined` and the empty
string are falsy, every other string is truthy. -/
def jsTruthy : Option String → Bool
  | none => false
  | some s => !(s == "")

/-- Overwriting insertion into a string-keyed map, the JS object spread
`\x7b ...answers, [key]: val \x7d` of `handleAnswer`. -/
def insertAns (m : String → Option String) (k v : String) : String → Option String :=
  fun x => if x = k then some v else m x

/-- Local `isRed` of `calculateResult`: any of the four symptom flags
equals the literal string "Yes". -/
abbrev isRed (data : String → Option String) : Prop :=
  data "q6" = some "Yes" ∨ data "q7" = some "Yes" ∨
  data "q8" = some "Yes" ∨ data "q10" = some "Yes"

/-- Local `hasDiabetes` of `calculateResult`: `data.q3 && data.q3 !== 'No'`,
with JS truthiness made explicit. -/
abbrev hasDiabetes (data : String → Option String) : Prop :=
  jsTruthy (data "q3") = true ∧ data "q3" ≠ some "No"

/-- Local `hasTrace` of `calculateResult`. -/
abbrev hasTrace (data : String → Option String) : Prop :=
  data "q15" = some "Trace"

/-- Local `hasUrineProteinRisk` of `calculateResult`:
`data.q15 && (Trace | 1+ | 2+ | 3+)`. -/
abbrev hasUrineProteinRisk (data : String → Option String) : Prop :=
  jsTruthy (data "q15") = true ∧
    (data "q15" = some "Trace" ∨ data "q15" = some "1+" ∨
     data "q15" = some "2+" ∨ data "q15" = some "3+")

/-- Local `isAmber` of `calculateResult`, the general AMBER predicate. -/
abbrev isAmber (data : String → Option String) : Prop :=
  hasDiabetes data ∨
  data "q4" = some "Yes" ∨ data "q5" = some "Yes" ∨
  (jsTruthy (data "q9") = true ∧ data "q9" ≠ some "No") ∨
  data "q11" = some "Yes" ∨ data "q1" = some "Above 60" ∨
  hasUrineProteinRisk data

/-- Risk classifier from `src/App.tsx` (`calculateResult`): the RED
short-circuit, then the diabetes+Trace override, then the general AMBER
predicate, else GREEN. -/
def calculateResult (data : String → Option String) : String :=
  if isRed data then "RED"
  else if hasDiabetes data ∧ hasTrace data then "AMBER"
  else if isAmber data then "AMBER"
  else "GREEN"

/-- C1: if any of the four symptom flags q6, q7, q8, q10 equals the
literal string "Yes", `calculateResult` returns RED, regardless of every
other answer. -/
theorem red_short_circuit (data : String → Option String)
    (h : data "q6" = some "Yes" ∨ data "q7" = some "Yes" ∨
         data "q8" = some "Yes" ∨ data "q10" = some "Yes") :
    calculateResult data = "RED" := by
  unfold calculateResult
  rw [if_pos h]

/-- Witness for C1: a concrete AnswerSet with q6 = "Yes" and values that
would otherwise trigger AMBER still classifies RED. -/
theorem red_short_circuit_witness :
    ((fun x => if x = "q6" then some "Yes" else
               if x = "q3" then some "Diabetes" else
               if x = "q15" then some "Trace" else none) "q6" = some "Yes" ∨
     (fun x => if x = "q6" then some "Yes" else
               if x = "q3" then some "Diabetes" else
               if x = "q15" then some "Trace" else none) "q7" = some "Yes" ∨
     (fun x => if x = "q6" then some "Yes" else
               if x = "q3" then some "Diabetes" else
               if x = "q15" then some "Trace" else none) "q8" = some "Yes" ∨
     (fun x => if x = "q6" then some "Yes" else
               if x = "q3" then some "Diabetes" else
               if x = "q15" then some "Trace" else none) "q10" = some "Yes") ∧
    calculateResult (fun x => if x = "q6" then some "Yes" else
               if x = "q3" then some "Diabetes" else
               if x = "q15" then some "Trace" else none) = "RED" :=
  ⟨Or.inl (by decide),
   red_short_circuit _ (Or.inl (by decide))⟩

/-- C2: with no symptom flag "Yes", q3 present and not "No", and
q15 = "Trace", `calculateResult` returns AMBER. -/
theorem diabetic_trace_override (data : String → Option String)
    (h6 : data "q6" ≠ some "Yes") (h7 : data "q7" ≠ some "Yes")
    (h8 : data "q8" ≠ some "Yes") (h10 : data "q10" ≠ some "Yes")
    (hq3 : data "q3" ≠ none) (hq3no : data "q3" ≠ some "No")
    (h15 : data "q15" = some "Trace") :
    calculateResult data = "AMBER" := by
  have hred : ¬ isRed data := by
    intro h; rcases h with h | h | h | h
    exacts [h6 h, h7 h, h8 h, h10 h]
  unfold calculateResult
  rw [if_neg hred]
  by_cases hov : hasDiabetes data ∧ hasTrace data
  · rw [if_pos hov]
  · rw [if_neg hov, if_pos]
    have hupr : hasUrineProteinRisk data := ⟨by rw [h15]; decide, Or.inl h15⟩
    unfold isAmber
    tauto

/-- Witness for C2: the AnswerSet with q3 = "Diabetes", q15 = "Trace" and
every other key absent classifies AMBER. -/
theorem diabetic_trace_override_witness :
    calculateResult (fun x => if x = "q3" then some "Diabetes" else
                              if x = "q15" then some "Trace" else none) = "AMBER" :=
  diabetic_trace_override _ (by decide) (by decide) (by decide) (by decide)
    (by decide) (by decide) (by decide)

/-- General AMBER predicate of claim C3, amended at "present" for q3 and
q9: because of JS truthiness, a present but empty-string answer behaves
as absent, so "present" has to be read as "present with a non-empty
value". -/
abbrev amberCond (data : String → Option String) : Prop :=
  (jsTruthy (data "q3") = true ∧ data "q3" ≠ some "No") ∨
  data "q4" = some "Yes" ∨ data "q5" = some "Yes" ∨
  (jsTruthy (data "q9") = true ∧ data "q9" ≠ some "No") ∨
  data "q11" = some "Yes" ∨ data "q1" = some "Above 60" ∨
  data "q15" = some "Trace" ∨ data "q15" = some "1+" ∨
  data "q15" = some "2+" ∨ data "q15" = some "3+"

theorem hasUrineProteinRisk_iff (data : String → Option String) :
    hasUrineProteinRisk data ↔
      (data "q15" = some "Trace" ∨ data "q15" = some "1+" ∨
       data "q15" = some "2+" ∨ data "q15" = some "3+") := by
  constructor
  · intro h
    exact h.2
  · intro h
    refine ⟨?_, h⟩
    rcases h with h | h | h | h <;> rw [h] <;> decide

theorem isAmber_iff_amberCond (data : String → Option String) :
    isAmber data ↔ amberCond data := by
  unfold isAmber amberCond hasDiabetes
  exact or_congr Iff.rfl (or_congr Iff.rfl (or_congr Iff.rfl (or_congr Iff.rfl
    (or_congr Iff.rfl (or_congr Iff.rfl (hasUrineProteinRisk_iff data))))))

/-- AnswerSet refuting claim C3 as stated: q3 is present (with the empty
string as value) and different from "No", yet the code classifies GREEN
because JS truthiness treats the empty string as absent. -/
def c3Data : String → Option String :=
  fun x => if x = "q3" then some "" else none

/-- Counterexample to C3 as stated: in `c3Data` no symptom flag is "Yes",
q3 is present and not equal to "No" (so the claim demands AMBER), but
`calculateResult` returns GREEN. -/
theorem general_amber_iff_counterexample :
    c3Data "q6" = none ∧ c3Data "q7" = none ∧ c3Data "q8" = none ∧
    c3Data "q10" = none ∧ c3Data "q3" ≠ none ∧ c3Data "q3" ≠ some "No" ∧
    calculateResult c3Data = "GREEN" := by
  refine ⟨by decide, by decide, by decide, by decide, by decide, by decide, ?_⟩
  decide

/-- C3 (amended): with no symptom flag "Yes", `calculateResult` returns
AMBER exactly when the general risk disjunction holds — where "q3 (resp.
q9) present and not No" is read with JS truthiness, i.e. present with a
non-empty value — and returns GREEN otherwise. -/
theorem general_amber_iff (data : String → Option String)
    (h6 : data "q6" ≠ some "Yes") (h7 : data "q7" ≠ some "Yes")
    (h8 : data "q8" ≠ some "Yes") (h10 : data "q10" ≠ some "Yes") :
    (calculateResult data = "AMBER" ↔ amberCond data) ∧
    (¬ amberCond data → calculateResult data = "GREEN") := by
  have hred : ¬ isRed data := by
    intro h; rcases h with h | h | h | h
    exacts [h6 h, h7 h, h8 h, h10 h]
  have hac := isAmber_iff_amberCond data
  unfold calculateResult
  rw [if_neg hred]
  by_cases hov : hasDiabetes data ∧ hasTrace data
  · rw [if_pos hov]
    have hc : amberCond data := hac.mp (Or.inl hov.1)
    exact ⟨⟨fun _ => hc, fun _ => rfl⟩, fun h => absurd hc h⟩
  · rw [if_neg hov]
    by_cases hgen : isAmber data
    · rw [if_pos hgen]
      exact ⟨⟨fun _ => hac.mp hgen, fun _ => rfl⟩, fun h => absurd (hac.mp hgen) h⟩
    · rw [if_neg hgen]
      refine ⟨⟨fun hres => absurd hres (by decide), fun hc => absurd (hac.mpr hc) hgen⟩,
        fun _ => rfl⟩

/-- Witness for C3 (amended): at an AnswerSet whose only risk signal is
q15 = "2+", the classifier returns AMBER, and at the all-absent AnswerSet
it returns GREEN. -/
theorem general_amber_iff_witness :
    calculateResult (fun x => if x = "q15" then some "2+" else none) = "AMBER" ∧
    calculateResult (fun _ => none) = "GREEN" :=
  ⟨(general_amber_iff (fun x => if x = "q15" then some "2+" else none)
      (by decide) (by decide) (by decide) (by decide)).1.mpr (by decide),
   (general_amber_iff (fun _ => none)
      (by decide) (by decide) (by decide) (by decide)).2 (by decide)⟩

/-- Language union type from `src/types.ts`. -/
inductive Language where
  | en
  | ta
deriving DecidableEq

/-- Mode union type from `src/types.ts`. -/
inductive Mode where
  | self
  | parent
deriving DecidableEq

/-- UserInfo from `src/types.ts`; `age` is the numeric intake age. -/
structure UserInfo where
  name : String
  dob : String
  age : Int
  phone : String
  email : String
  location : String

/-- AssessmentResult from `src/types.ts`: zone, priority code, timestamp. -/
structure AssessmentResult where
  zone : String
  code : String
  timestamp : String
deriving DecidableEq

/-- Question from `src/types.ts`, restricted to the fields the flow
controller reads (`label` and `options` are presentation-only and touch
no claim). -/
structure Question where
  id : String
  dependsOn : Option String
  requiredValues : Option (List String)
deriving DecidableEq

/-- AppState from `src/types.ts`. -/
structure AppState where
  language : Language
  hasStarted : Bool
  isUserInfoCollected : Bool
  userInfo : Option UserInfo
  userId : Option String
  mode : Mode
  step : Nat
  answers : String → Option String
  result : Option AssessmentResult
  unit : String
  qrNo : Option String
  isSubmitting : Bool

/-- Age-group synthesis from `handleUserInfoSubmit` in `src/App.tsx`:
`age < 40 → Below 40`, `40 ≤ age ≤ 60 → 40–60`, else `Above 60`. -/
def ageGroupVal (age : Int) : String :=
  if age < 40 then "Below 40"
  else if 40 ≤ age ∧ age ≤ 60 then "40–60"
  else "Above 60"

/-- `handleUserInfoSubmit` from `src/App.tsx`.  The `createUser` API call
lives in `services/dataService` (not part of the sources); its outcome is
passed in as `createdUserId`: on `none` the handler returns early and the
state is unchanged, otherwise it records the user info, the synthesized
q1 answer, and jumps to step 1 (skipping the auto-derived question 0). -/
def handleUserInfoSubmit (st : AppState) (info : UserInfo)
    (createdUserId : Option String) : AppState :=
  match createdUserId with
  | none => st
  | some uid =>
    { st with
      userInfo := some info
      userId := some uid
      isUserInfoCollected := true
      answers := insertAns st.answers "q1" (ageGroupVal info.age)
      step := 1 }

/-- C6: the synthesized age-group answer q1 is "Below 40" for age < 40,
"40–60" for 40 ≤ age ≤ 60 and "Above 60" for age > 60; boundary ages 40
and 60 fall in "40–60", 61 in "Above 60", and every age produces a
defined (non-empty) group, which `handleUserInfoSubmit` records under
key q1. -/
theorem age_group_derivation (st : AppState) (info : UserInfo) (uid : String) :
    (handleUserInfoSubmit st info (some uid)).answers "q1"
      = some (ageGroupVal info.age) ∧
    (info.age < 40 → ageGroupVal info.age = "Below 40") ∧
    (40 ≤ info.age → info.age ≤ 60 → ageGroupVal info.age = "40–60") ∧
    (60 < info.age → ageGroupVal info.age = "Above 60") ∧
    ageGroupVal info.age ≠ "" := by
  refine ⟨?_, ?_, ?_, ?_, ?_⟩
  · simp [handleUserInfoSubmit, insertAns]
  · intro h; simp [ageGroupVal, h]
  · intro h1 h2
    have h3 : ¬ info.age < 40 := by omega
    simp [ageGroupVal, h3, h1, h2]
  · intro h
    have h1 : ¬ info.age < 40 := by omega
    have h2 : ¬ (40 ≤ info.age ∧ info.age ≤ 60) := by omega
    simp [ageGroupVal, h1, h2]
  · unfold ageGroupVal
    split
    · decide
    · split
      · decide
      · decide

/-- Fixed demo state used to instantiate witnesses. -/
def demoState : AppState :=
  { language := Language.en
    hasStarted := true
    isUserInfoCollected := false
    userInfo := none
    userId := none
    mode := Mode.self
    step := 0
    answers := fun _ => none
    result := none
    unit := "default"
    qrNo := some "KH05"
    isSubmitting := false }

/-- Demo user info, parameterized by age. -/
def demoInfo (age : Int) : UserInfo :=
  { name := "A", dob := "1980-01-01", age := age, phone := "9", email := "a@b.c",
    location := "Chennai" }

/-- Witness for C6: the boundary ages of the claim, evaluated. -/
theorem age_group_derivation_witness :
    ageGroupVal 40 = "40–60" ∧ ageGroupVal 60 = "40–60" ∧
    ageGroupVal 61 = "Above 60" ∧ ageGroupVal 0 ≠ "" ∧ ageGroupVal 119 ≠ "" ∧
    (handleUserInfoSubmit demoState (demoInfo 61) (some "u1")).answers "q1"
      = some "Above 60" := by
  have h40 := (age_group_derivation demoState (demoInfo 40) "u1").2.2.1
    (by decide) (by decide)
  have h60 := (age_group_derivation demoState (demoInfo 60) "u1").2.2.1
    (by decide) (by decide)
  have h61 := (age_group_derivation demoState (demoInfo 61) "u1").2.2.2.1 (by decide)
  have h0 := (age_group_derivation demoState (demoInfo 0) "u1").2.2.2.2
  have h119 := (age_group_derivation demoState (demoInfo 119) "u1").2.2.2.2
  have hrec := (age_group_derivation demoState (demoInfo 61) "u1").1
  refine ⟨h40, h60, h61, h0, h119, ?_⟩
  rw [hrec, h61]

/-- `handleRestart` from `src/App.tsx`: keeps the spread fields
(language, unit, qrNo, isSubmitting), sets the new mode, and resets the
wizard including the collected user identity. -/
def handleRestart (st : AppState) (newMode : Mode) : AppState :=
  { st with
    mode := newMode
    step := 0
    answers := fun _ => none
    result := none
    userInfo := none
    userId := none
    isUserInfoCollected := false
    hasStarted := false }

/-- C10: `handleRestart` sets mode to its argument, resets step, answers,
result, user identity and start flag, and leaves language, unit, qrNo and
isSubmitting unchanged — in both restart modes. -/
theorem restart_resets_state (st : AppState) (m : Mode) :
    (handleRestart st m).mode = m ∧
    (handleRestart st m).step = 0 ∧
    (handleRestart st m).answers = (fun _ => none) ∧
    (handleRestart st m).result = none ∧
    (handleRestart st m).userInfo = none ∧
    (handleRestart st m).userId = none ∧
    (handleRestart st m).isUserInfoCollected = false ∧
    (handleRestart st m).hasStarted = false ∧
    (handleRestart st m).language = st.language ∧
    (handleRestart st m).unit = st.unit ∧
    (handleRestart st m).qrNo = st.qrNo ∧
    (handleRestart st m).isSubmitting = st.isSubmitting :=
  ⟨rfl, rfl, rfl, rfl, rfl, rfl, rfl, rfl, rfl, rfl, rfl, rfl⟩

/-- Visibility test shared by the skip loops of `getNextStepIndex` and
`handleBack` in `src/App.tsx`: a question is skipped exactly when
`q.dependsOn && q.requiredValues` is truthy (a present, non-empty
`dependsOn` and a present `requiredValues` array) and the recorded answer
for `dependsOn` is not a member of `requiredValues` (a missing answer is
`undefined` and never a member). -/
def stepVisible (ans : String → Option String) (q : Question) : Bool :=
  match q.dependsOn, q.requiredValues with
  | some d, some vs =>
    if d = "" then true
    else
      match ans d with
      | some v => decide (v ∈ vs)
      | none => false
  | _, _ => true

/-- Forward skip loop of `getNextStepIndex`: walk the remaining questions
(`qs.drop i` paired with the running index `i`) until a visible one is
found, returning its index, or the running index (which has then reached
`qs.length`) when the list is exhausted. -/
def nextScanAux (ans : String → Option String) : List Question → Nat → Nat
  | [], i => i
  | q :: rest, i => if stepVisible ans q then i else nextScanAux ans rest (i + 1)

/-- `getNextStepIndex` from `src/App.tsx`: scan from `currentStep + 1`
upward for the first visible question; `qs.length` is the completion
sentinel. -/
def getNextStepIndex (qs : List Question) (currentStep : Nat)
    (ans : String → Option String) : Nat :=
  nextScanAux ans (qs.drop (currentStep + 1)) (currentStep + 1)

/-- Backward skip loop of `handleBack`: the questions below the starting
index, highest first (`(qs.take (p+1)).reverse`), with the running index
counting down; returns the index of the first visible question or `-1`
when the loop ran past index 0. -/
def backScanAux (ans : String → Option String) : List Question → Int → Int
  | [], i => i
  | q :: rest, i => if stepVisible ans q then i else backScanAux ans rest (i - 1)

/-- Backward scan of `handleBack` from index `p` (which is
`state.step - 1`) down to 0.  Under the state-machine contract the
starting index is below `qs.length`, so the slice `qs.take (p+1)` holds
exactly the questions the source loop indexes. -/
def backScan (qs : List Question) (ans : String → Option String) (p : Int) : Int :=
  if p < 0 then p
  else backScanAux ans (qs.take (p.toNat + 1)).reverse p

/-- `handleBack` from `src/App.tsx`: from step 1 the wizard returns to
the user-info form (question 0 is auto-derived and never shown); from any
other step it scans backward for the first visible question and clamps
the result at 0. -/
def handleBack (qs : List Question) (st : AppState) : AppState :=
  if st.step = 1 then { st with isUserInfoCollected := false }
  else { st with step := (max 0 (backScan qs st.answers ((st.step : Int) - 1))).toNat }

/-- `handleAnswer` from `src/App.tsx`.  Records the value for the current
question; if the next visible index reaches the sentinel it classifies,
generates the code and sets the result (the transient
`isSubmitting := true` has no observable trace in the final state),
otherwise it advances to the next visible step.  `gen` abstracts
`generatePriorityCode`.  `submitAssessment` lives in
`services/dataService` (not part of the sources); per the spec it
resolves to a success flag and never throws, so its outcome enters as
`persistOk` and only selects the user-visible failure alert, returned as
the second component.  A step out of range would fault in the source
(contract violation); here it leaves the state unchanged. -/
def handleAnswer (qs : List Question) (gen : String → String) (persistOk : Bool)
    (now : String) (st : AppState) (val : String) : AppState × Option String :=
  match qs[st.step]? with
  | none => (st, none)
  | some currentQ =>
    let newAnswers := insertAns st.answers currentQ.id val
    let nextStep := getNextStepIndex qs st.step newAnswers
    if qs.length ≤ nextStep then
      let zone := calculateResult newAnswers
      let code := if zone = "RED" then gen "RED" else gen zone
      ({ st with
          answers := newAnswers
          result := some ⟨zone, code, now⟩
          isSubmitting := false },
       if persistOk then none else some "Failed to save assessment. Please try again.")
    else
      ({ st with answers := newAnswers, step := nextStep }, none)

/-- Visibility as the claims state it: a question is visible when it has
no `dependsOn`, or when the recorded answer of its `dependsOn` question
is a member of its `requiredValues`. -/
def claimVisible (ans : String → Option String) (q : Question) : Prop :=
  q.dependsOn = none ∨
  ∃ d vs v, q.dependsOn = some d ∧ q.requiredValues = some vs ∧
    ans d = some v ∧ v ∈ vs

/-- Data-model invariant of the question list, from the spec (§3): a
question's `dependsOn`, when set, names another question (a non-empty
identifier), and its `requiredValues` is then present.  The concrete
QUESTIONS list (`src/constants`) is not part of the sources, so the flow
claims are settled over every list satisfying this invariant. -/
def questionWF (q : Question) : Bool :=
  match q.dependsOn with
  | none => true
  | some d => !(d == "") && q.requiredValues.isSome

abbrev specWellFormed (qs : List Question) : Prop :=
  ∀ q ∈ qs, questionWF q = true

/-- On well-formed questions the source's skip test coincides with the
claims' visibility predicate. -/
theorem stepVisible_iff_claimVisible (ans : String → Option String)
    (q : Question) (hq : questionWF q = true) :
    stepVisible ans q = true ↔ claimVisible ans q := by
  unfold questionWF at hq
  unfold stepVisible claimVisible
  rcases hdep : q.dependsOn with _ | d
  · exact ⟨fun _ => Or.inl rfl, fun _ => rfl⟩
  · rw [hdep] at hq
    have hq' : (!(d == "") && q.requiredValues.isSome) = true := hq
    have hd : ¬ d = "" := by
      intro h
      rw [h] at hq'
      simp at hq'
    have hrv : q.requiredValues.isSome = true := by
      simp only [Bool.and_eq_true] at hq'
      exact hq'.2
    rcases hv : q.requiredValues with _ | vs
    · rw [hv] at hrv; simp at hrv
    · show (if d = "" then true
            else match ans d with
                 | some v => decide (v ∈ vs)
                 | none => false) = true ↔ _
      rw [if_neg hd]
      rcases hans : ans d with _ | v
      · simp [hans]
      · simp [hans]

/-- What the forward scan has to deliver when started at running index
`i`: a result `r` with `i ≤ r`, bounded by `qs.length` (once `i` is),
every index in `[i, r)` skipped because hidden, and `r` itself visible
whenever it is a real index. -/
def nextScanSpec (qs : List Question) (ans : String → Option String)
    (i r : Nat) : Prop :=
  i ≤ r ∧ r ≤ max i qs.length ∧
  (∀ j (hj : j < qs.length), i ≤ j → j < r →
    stepVisible ans (qs.get ⟨j, hj⟩) = false) ∧
  (∀ hr : r < qs.length, stepVisible ans (qs.get ⟨r, hr⟩) = true)

theorem nextScanAux_spec (qs : List Question) (ans : String → Option String) :
    ∀ n i, qs.length - i ≤ n →
      nextScanSpec qs ans i (nextScanAux ans (qs.drop i) i) := by
  intro n
  induction n with
  | zero =>
    intro i hi
    have hlen : qs.length ≤ i := by omega
    rw [List.drop_eq_nil_of_le hlen]
    show nextScanSpec qs ans i i
    exact ⟨le_refl i, by omega, fun j hj h1 h2 => by omega, fun hr => by omega⟩
  | succ n ih =>
    intro i hi
    by_cases hlen : qs.length ≤ i
    · rw [List.drop_eq_nil_of_le hlen]
      show nextScanSpec qs ans i i
      exact ⟨le_refl i, by omega, fun j hj h1 h2 => by omega, fun hr => by omega⟩
    · have hilt : i < qs.length := by omega
      rw [List.drop_eq_getElem_cons hilt]
      show nextScanSpec qs ans i
        (if stepVisible ans qs[i] then i else nextScanAux ans (qs.drop (i + 1)) (i + 1))
      by_cases hvis : stepVisible ans qs[i] = true
      · rw [if_pos hvis]
        exact ⟨le_refl i, by omega, fun j hj h1 h2 => by omega,
          fun hr => hvis⟩
      · rw [if_neg hvis]
        obtain ⟨h1, h2, h3, h4⟩ := ih (i + 1) (by omega)
        refine ⟨by omega, by omega, ?_, h4⟩
        intro j hj hij hjr
        rcases Nat.eq_or_lt_of_le hij with heq | hlt
        · subst heq
          exact Bool.eq_false_iff.mpr hvis
        · exact h3 j hj hlt hjr

/-- C4: from any in-range `currentIndex`, `getNextStepIndex` scans from
`currentIndex + 1` upward, skips exactly the questions whose `dependsOn`
answer is not a member of `requiredValues` (recording nothing for them),
returns the first visible index, and returns the sentinel `qs.length`
when no visible candidate remains.  Quantified over every question list
satisfying the spec's data-model invariant, the concrete QUESTIONS list
not being part of the sources. -/
theorem next_step_scan (qs : List Question) (ans : String → Option String)
    (cur : Nat) (hwf : specWellFormed qs) (hcur : cur < qs.length) :
    cur + 1 ≤ getNextStepIndex qs cur ans ∧
    getNextStepIndex qs cur ans ≤ qs.length ∧
    (∀ j (hj : j < qs.length), cur < j → j < getNextStepIndex qs cur ans →
      ¬ claimVisible ans (qs.get ⟨j, hj⟩)) ∧
    (∀ hr : getNextStepIndex qs cur ans < qs.length,
      claimVisible ans (qs.get ⟨getNextStepIndex qs cur ans, hr⟩)) := by
  unfold getNextStepIndex
  obtain ⟨h1, h2, h3, h4⟩ := nextScanAux_spec qs ans qs.length (cur + 1) (by omega)
  refine ⟨h1, by omega, ?_, ?_⟩
  · intro j hj hcj hjr hvis
    have hmem : qs.get ⟨j, hj⟩ ∈ qs := List.get_mem qs j hj
    have := (stepVisible_iff_claimVisible ans _ (hwf _ hmem)).mpr hvis
    rw [h3 j hj (by omega) hjr] at this
    cases this
  · intro hr
    have hmem := List.get_mem qs _ hr
    exact (stepVisible_iff_claimVisible ans _ (hwf _ hmem)).mp (h4 hr)

/-- Question list used to instantiate the flow witnesses: a dependent
question "q13" shown only when "q2" was answered "Yes". -/
def demoQs : List Question :=
  [⟨"q1", none, none⟩, ⟨"q2", none, none⟩,
   ⟨"q13", some "q2", some ["Yes"]⟩, ⟨"q14", none, none⟩]

/-- Answers in which the dependency of "q13" is not satisfied. -/
def demoAnsNo : String → Option String :=
  fun x => if x = "q1" then some "40–60" else if x = "q2" then some "No" else none

/-- Witness for C4: with "q2" answered "No" the scan from index 1 skips
the dependent question at index 2 and lands on index 3. -/
theorem next_step_scan_witness :
    specWellFormed demoQs ∧ 1 < demoQs.length ∧
    getNextStepIndex demoQs 1 demoAnsNo = 3 ∧
    (∀ j (hj : j < demoQs.length), 1 < j → j < getNextStepIndex demoQs 1 demoAnsNo →
      ¬ claimVisible demoAnsNo (demoQs.get ⟨j, hj⟩)) ∧
    (∀ hr : getNextStepIndex demoQs 1 demoAnsNo < demoQs.length,
      claimVisible demoAnsNo (demoQs.get ⟨getNextStepIndex demoQs 1 demoAnsNo, hr⟩)) :=
  ⟨by decide, by decide, by decide,
   (next_step_scan demoQs demoAnsNo 1 (by decide) (by decide)).2.2.1,
   (next_step_scan demoQs demoAnsNo 1 (by decide) (by decide)).2.2.2⟩

/-- What the backward scan from index `p` has to deliver: either the
greatest visible index `m ≤ p` with everything in `(m, p]` hidden, or
`-1` with everything in `[0, p]` hidden. -/
def backScanSpec (qs : List Question) (ans : String → Option String)
    (p : Nat) (r : Int) : Prop :=
  (∃ m : Nat, r = (m : Int) ∧ m ≤ p ∧
    (∃ hm : m < qs.length, stepVisible ans (qs.get ⟨m, hm⟩) = true) ∧
    ∀ j (hj : j < qs.length), m < j → j ≤ p →
      stepVisible ans (qs.get ⟨j, hj⟩) = false) ∨
  (r = -1 ∧ ∀ j (hj : j < qs.length), j ≤ p →
    stepVisible ans (qs.get ⟨j, hj⟩) = false)

theorem take_reverse_cons (qs : List Question) (p : Nat) (hp : p < qs.length) :
    (qs.take (p + 1)).reverse = qs[p] :: (qs.take p).reverse := by
  rw [List.take_succ, List.getElem?_eq_getElem hp]
  simp

theorem backScanAux_spec (qs : List Question) (ans : String → Option String) :
    ∀ p, p < qs.length →
      backScanSpec qs ans p (backScanAux ans ((qs.take (p + 1)).reverse) (p : Int)) := by
  intro p
  induction p with
  | zero =>
    intro hp
    rw [take_reverse_cons qs 0 hp]
    show backScanSpec qs ans 0
      (if stepVisible ans qs[0] then (0 : Int) else backScanAux ans (qs.take 0).reverse (0 - 1))
    by_cases hvis : stepVisible ans qs[0] = true
    · rw [if_pos hvis]
      exact Or.inl ⟨0, rfl, le_refl 0, ⟨hp, hvis⟩, fun j hj h1 h2 => by omega⟩
    · rw [if_neg hvis]
      refine Or.inr ⟨rfl, ?_⟩
      intro j hj hj0
      have : j = 0 := by omega
      subst this
      exact Bool.eq_false_iff.mpr hvis
  | succ p ih =>
    intro hp
    rw [take_reverse_cons qs (p + 1) hp]
    show backScanSpec qs ans (p + 1)
      (if stepVisible ans qs[p + 1] then ((p + 1 : Nat) : Int)
       else backScanAux ans (qs.take (p + 1)).reverse (((p + 1 : Nat) : Int) - 1))
    by_cases hvis : stepVisible ans qs[p + 1] = true
    · rw [if_pos hvis]
      exact Or.inl ⟨p + 1, rfl, le_refl _, ⟨hp, hvis⟩, fun j hj h1 h2 => by omega⟩
    · rw [if_neg hvis]
      have hcast : ((p + 1 : Nat) : Int) - 1 = (p : Int) := by push_cast; omega
      rw [hcast]
      have hjq : ∀ j (hj : j < qs.length), j ≤ p + 1 → j = p + 1 →
          stepVisible ans (qs.get ⟨j, hj⟩) = false := by
        intro j hj _ hje
        subst hje
        exact Bool.eq_false_iff.mpr hvis
      rcases ih (by omega) with ⟨m, hm1, hm2, hm3, hm4⟩ | ⟨hr, hall⟩
      · refine Or.inl ⟨m, hm1, by omega, hm3, ?_⟩
        intro j hj h1 h2
        rcases Nat.lt_or_ge j (p + 1) with hlt | hge
        · exact hm4 j hj h1 (by omega)
        · exact hjq j hj h2 (by omega)
      · refine Or.inr ⟨hr, ?_⟩
        intro j hj h1
        rcases Nat.lt_or_ge j (p + 1) with hlt | hge
        · exact hall j hj (by omega)
        · exact hjq j hj h1 (by omega)

/-- C7: stepping back from index 1 returns to the intake pseudo-state
(the user-info form) instead of index 0; from any other in-range index,
`handleBack` scans downward from `currentIndex - 1` with the same
visibility rule and sets the first visible index, clamping to 0 when no
visible question exists below.  Quantified over every question list
satisfying the spec's data-model invariant. -/
theorem previous_step_scan (qs : List Question) (st : AppState)
    (hwf : specWellFormed qs) (hstep : st.step < qs.length) :
    (st.step = 1 → handleBack qs st = { st with isUserInfoCollected := false }) ∧
    (st.step ≠ 1 →
      (∃ hm : (handleBack qs st).step < qs.length,
        (handleBack qs st).step < st.step ∧
        claimVisible st.answers (qs.get ⟨(handleBack qs st).step, hm⟩) ∧
        ∀ j (hj : j < qs.length), (handleBack qs st).step < j → j < st.step →
          ¬ claimVisible st.answers (qs.get ⟨j, hj⟩)) ∨
      ((handleBack qs st).step = 0 ∧
        ∀ j (hj : j < qs.length), j < st.step →
          ¬ claimVisible st.answers (qs.get ⟨j, hj⟩))) := by
  constructor
  · intro h1
    unfold handleBack
    rw [if_pos h1]
  · intro hne
    have hvis_iff : ∀ j (hj : j < qs.length),
        stepVisible st.answers (qs.get ⟨j, hj⟩) = true ↔
        claimVisible st.answers (qs.get ⟨j, hj⟩) := by
      intro j hj
      exact stepVisible_iff_claimVisible st.answers _ (hwf _ (List.get_mem qs j hj))
    unfold handleBack
    rw [if_neg hne]
    rcases Nat.eq_zero_or_pos st.step with hz | hpos
    · right
      rw [hz]
      have hneg : ((0 : Nat) : Int) - 1 < 0 := by omega
      constructor
      · show (max 0 (backScan qs st.answers (((0 : Nat) : Int) - 1))).toNat = 0
        unfold backScan
        rw [if_pos hneg]
        decide
      · intro j hj hj0
        omega
    · have hp : st.step - 1 < qs.length := by omega
      have hpcast : (st.step : Int) - 1 = ((st.step - 1 : Nat) : Int) := by
        push_cast [Nat.cast_sub hpos]
        omega
      have hnn : ¬ ((st.step - 1 : Nat) : Int) < 0 := by omega
      have hspec := backScanAux_spec qs st.answers (st.step - 1) hp
      rcases hspec with ⟨m, hm1, hm2, ⟨hmlt, hmvis⟩, hm4⟩ | ⟨hr, hall⟩
      · left
        have hstepval : ({ st with
            step := (max 0 (backScan qs st.answers ((st.step : Int) - 1))).toNat }
              : AppState).step = m := by
          show (max 0 (backScan qs st.answers ((st.step : Int) - 1))).toNat = m
          unfold backScan
          rw [hpcast, if_neg hnn, Int.toNat_natCast, hm1]
          omega
        rw [hstepval]
        refine ⟨hmlt, by omega, (hvis_iff m hmlt).mp hmvis, ?_⟩
        intro j hj h1 h2 hcv
        have := (hvis_iff j hj).mpr hcv
        rw [hm4 j hj h1 (by omega)] at this
        cases this
      · right
        have hstepval : ({ st with
            step := (max 0 (backScan qs st.answers ((st.step : Int) - 1))).toNat }
              : AppState).step = 0 := by
          show (max 0 (backScan qs st.answers ((st.step : Int) - 1))).toNat = 0
          unfold backScan
          rw [hpcast, if_neg hnn, Int.toNat_natCast, hr]
          decide
        rw [hstepval]
        refine ⟨rfl, ?_⟩
        intro j hj hjs hcv
        have := (hvis_iff j hj).mpr hcv
        rw [hall j hj (by omega)] at this
        cases this

/-- State used in the C7 witness: the wizard stands at step 3 with the
dependency of "q13" unsatisfied. -/
def demoBackState : AppState :=
  { demoState with step := 3, answers := demoAnsNo, isUserInfoCollected := true }

/-- Witness for C7: stepping back from step 3 skips hidden "q13" and
lands on step 1; stepping back from step 1 returns to the intake form. -/
theorem previous_step_scan_witness :
    specWellFormed demoQs ∧ demoBackState.step < demoQs.length ∧
    ((demoBackState.step = 1 →
        handleBack demoQs demoBackState =
          { demoBackState with isUserInfoCollected := false }) ∧
      (demoBackState.step ≠ 1 →
        (∃ hm : (handleBack demoQs demoBackState).step < demoQs.length,
          (handleBack demoQs demoBackState).step < demoBackState.step ∧
          claimVisible demoBackState.answers
            (demoQs.get ⟨(handleBack demoQs demoBackState).step, hm⟩) ∧
          ∀ j (hj : j < demoQs.length),
            (handleBack demoQs demoBackState).step < j → j < demoBackState.step →
            ¬ claimVisible demoBackState.answers (demoQs.get ⟨j, hj⟩)) ∨
        ((handleBack demoQs demoBackState).step = 0 ∧
          ∀ j (hj : j < demoQs.length), j < demoBackState.step →
            ¬ claimVisible demoBackState.answers (demoQs.get ⟨j, hj⟩)))) ∧
    (handleBack demoQs demoBackState).step = 1 ∧
    (handleBack demoQs { demoBackState with step := 1 }).isUserInfoCollected = false :=
  ⟨by decide, by decide,
   previous_step_scan demoQs demoBackState (by decide) (by decide),
   by decide, by decide⟩

/-- User actions driving the wizard: answering the current question or
stepping back.  ("Next" without changing an answer reuses the same scan
and records nothing; it adds no behaviour the claims touch.) -/
inductive WizAct where
  | ans (val : String)
  | back

/-- One wizard transition of the state machine in `src/App.tsx`. -/
def applyAct (qs : List Question) (gen : String → String) (persistOk : Bool)
    (now : String) (st : AppState) : WizAct → AppState
  | WizAct.ans v => (handleAnswer qs gen persistOk now st v).1
  | WizAct.back => handleBack qs st

/-- A whole wizard run: fold the user's actions over the state. -/
def runActs (qs : List Question) (gen : String → String) (persistOk : Bool)
    (now : String) (st : AppState) : List WizAct → AppState
  | [] => st
  | a :: rest => runActs qs gen persistOk now (applyAct qs gen persistOk now st a) rest

theorem applyAct_answers_mono (qs : List Question) (gen : String → String)
    (persistOk : Bool) (now : String) (st : AppState) (a : WizAct) (x v : String)
    (h : st.answers x = some v) :
    ∃ w, (applyAct qs gen persistOk now st a).answers x = some w := by
  cases a with
  | ans val =>
    show ∃ w, (handleAnswer qs gen persistOk now st val).1.answers x = some w
    unfold handleAnswer
    rcases hq : qs[st.step]? with _ | q
    · exact ⟨v, h⟩
    · show ∃ w,
        (if qs.length ≤ getNextStepIndex qs st.step (insertAns st.answers q.id val) then _
         else _ : AppState × Option String).1.answers x = some w
      by_cases hc : qs.length ≤ getNextStepIndex qs st.step (insertAns st.answers q.id val)
      · rw [if_pos hc]
        show ∃ w, insertAns st.answers q.id val x = some w
        unfold insertAns
        by_cases hx : x = q.id
        · exact ⟨val, by rw [if_pos hx]⟩
        · exact ⟨v, by rw [if_neg hx]; exact h⟩
      · rw [if_neg hc]
        show ∃ w, insertAns st.answers q.id val x = some w
        unfold insertAns
        by_cases hx : x = q.id
        · exact ⟨val, by rw [if_pos hx]⟩
        · exact ⟨v, by rw [if_neg hx]; exact h⟩
  | back =>
    show ∃ w, (handleBack qs st).answers x = some w
    unfold handleBack
    by_cases h1 : st.step = 1
    · rw [if_pos h1]; exact ⟨v, h⟩
    · rw [if_neg h1]; exact ⟨v, h⟩

/-- C5 (amended): once a question has an answer recorded, no later
answer or back action of the run removes its key — so an answer recorded
for a question that is later skipped (after back-navigation changed its
dependency's answer) persists into the final AnswerSet passed to
classification. -/
theorem recorded_answers_persist (qs : List Question) (gen : String → String)
    (persistOk : Bool) (now : String) (st : AppState) (acts : List WizAct)
    (x v : String) (h : st.answers x = some v) :
    ∃ w, (runActs qs gen persistOk now st acts).answers x = some w := by
  induction acts generalizing st v with
  | nil => exact ⟨v, h⟩
  | cons a rest ih =>
    obtain ⟨w, hw⟩ := applyAct_answers_mono qs gen persistOk now st a x v h
    exact ih (applyAct qs gen persistOk now st a) w hw

/-- Wizard state at the start of the C5 run: the intake step is done and
only the synthesized q1 answer is recorded. -/
def c5Start : AppState :=
  { demoState with
    step := 1
    isUserInfoCollected := true
    answers := insertAns (fun _ => none) "q1" "40–60" }

/-- The C5 run: answer "q2" with "Yes", answer the dependent "q13", go
back twice, change "q2" to "No" (which hides "q13"), then answer "q14",
completing the wizard. -/
def c5Acts : List WizAct :=
  [WizAct.ans "Yes", WizAct.ans "X", WizAct.back, WizAct.back,
   WizAct.ans "No", WizAct.ans "Z"]

/-- Counterexample to C5 as stated: in the completed `c5Acts` run the
dependency of "q13" is unsatisfied at the end ("q2" = "No", and "No" is
not among the required values "Yes"), the run has produced its result,
yet the final AnswerSet still contains the stale key "q13" recorded
before the back-navigation — the claim says it must be absent. -/
theorem skipped_question_leaks :
    (runActs demoQs id true "t0" c5Start c5Acts).answers "q13" = some "X" ∧
    (runActs demoQs id true "t0" c5Start c5Acts).answers "q2" = some "No" ∧
    demoQs.get ⟨2, by decide⟩ = ⟨"q13", some "q2", some ["Yes"]⟩ ∧
    ¬ ("No" ∈ (["Yes"] : List String)) ∧
    (runActs demoQs id true "t0" c5Start c5Acts).result.isSome = true := by
  refine ⟨?_, ?_, by decide, by decide, ?_⟩ <;> decide

/-- Witness for C5 (amended): applied to the very same run, persistence
of the initially recorded "q1" answer. -/
theorem recorded_answers_persist_witness :
    c5Start.answers "q1" = some "40–60" ∧
    (∃ w, (runActs demoQs id true "t0" c5Start c5Acts).answers "q1" = some w) :=
  ⟨by decide, recorded_answers_persist demoQs id true "t0" c5Start c5Acts "q1" "40–60"
    (by decide)⟩

/-- C8: when an answer completes the flow (the scan reaches the
sentinel), the handler stores on the state a result whose zone is
`calculateResult` of the final answers and whose code is generated from
that zone, with `isSubmitting` cleared — and the resulting state is the
same whether the persistence call succeeds or fails; the persistence
outcome only selects the warning message. -/
theorem result_independent_of_persistence (qs : List Question)
    (gen : String → String) (now : String) (st : AppState) (val : String)
    (persistOk : Bool) (hstep : st.step < qs.length)
    (hdone : qs.length ≤
      getNextStepIndex qs st.step (insertAns st.answers qs[st.step].id val)) :
    ((handleAnswer qs gen persistOk now st val).1.result =
      some ⟨calculateResult (insertAns st.answers qs[st.step].id val),
            (if calculateResult (insertAns st.answers qs[st.step].id val) = "RED"
             then gen "RED"
             else gen (calculateResult (insertAns st.answers qs[st.step].id val))),
            now⟩) ∧
    (handleAnswer qs gen persistOk now st val).1.isSubmitting = false ∧
    (handleAnswer qs gen persistOk now st val).1 =
      (handleAnswer qs gen true now st val).1 ∧
    (handleAnswer qs gen false now st val).2 =
      some "Failed to save assessment. Please try again." := by
  have hget : qs[st.step]? = some qs[st.step] := List.getElem?_eq_getElem hstep
  simp only [handleAnswer, hget, if_pos hdone]
  exact ⟨trivial, trivial, trivial, by decide⟩

/-- Witness for C8: a one-question list; answering it completes the flow,
and both persistence outcomes yield the same resulted state. -/
theorem result_independent_of_persistence_witness :
    demoState.step < [(⟨"q1", none, none⟩ : Question)].length ∧
    [(⟨"q1", none, none⟩ : Question)].length ≤
      getNextStepIndex [(⟨"q1", none, none⟩ : Question)] demoState.step
        (insertAns demoState.answers
          ([(⟨"q1", none, none⟩ : Question)])[demoState.step].id "Yes") ∧
    ((handleAnswer [(⟨"q1", none, none⟩ : Question)] id false "t0" demoState "Yes").1.result =
      some ⟨"GREEN", "GREEN", "t0"⟩) :=
  ⟨by decide, by decide, by
    have h := (result_independent_of_persistence [(⟨"q1", none, none⟩ : Question)]
      id "t0" demoState "Yes" false (by decide) (by decide)).1
    rw [h]
    decide⟩

/-!
Report token encoder of `src/components/ResultScreen.tsx` and its
decoder.  A JS string is a list of Unicode code points (`List Nat`);
a valid one contains only scalar values (no surrogates, below 0x110000),
which is what `encodeURIComponent` accepts.  The encoder of the source is
`JSON.stringify` of the payload followed by `unicodeSafeBtoa`, whose
`encodeURIComponent`/percent-unescape step turns the string into its
UTF-8 bytes before `btoa` applies Base64.  `ReportView` (the decoder) is
not part of the sources; it is modelled from the spec as the parser
reconstructing the same structure.
-/

/-- Unicode scalar value: a code point outside the surrogate range and
below 0x110000. -/
def isScalarCP (c : Nat) : Prop :=
  c < 1114112 ∧ (c < 55296 ∨ 57343 < c)

instance (c : Nat) : Decidable (isScalarCP c) := by
  unfold isScalarCP
  exact inferInstance

/-- A JS string whose code points are all scalar values. -/
abbrev validJString (s : List Nat) : Prop :=
  ∀ c ∈ s, isScalarCP c

/-- Report payload serialized by `generateQR` in ResultScreen:
`v` is the literal 1 in the source; `i` the priority code, `d` the
timestamp, `z` the zone, `l` the language, `a` the ordered answer values
(`null` for unanswered questions). -/
structure ReportPayload where
  i : List Nat
  d : List Nat
  z : List Nat
  l : List Nat
  a : List (Option (List Nat))
deriving DecidableEq

/-- All strings of the payload are valid JS strings. -/
abbrev validPayload (p : ReportPayload) : Prop :=
  validJString p.i ∧ validJString p.d ∧ validJString p.z ∧ validJString p.l ∧
  ∀ s ∈ p.a, ∀ t ∈ s, validJString t

/-- Hexadecimal digit as a code point, lowercase as `JSON.stringify`
emits it. -/
def hexDig (n : Nat) : Nat :=
  if n < 10 then 48 + n else 87 + n

/-- `JSON.stringify` escaping of one string character: quote and
backslash get a backslash escape, the named control characters get their
short escape, other control characters a `\u00xx` escape, everything
else stands for itself. -/
def escapeJSONChar (c : Nat) : List Nat :=
  if c = 34 then [92, 34]
  else if c = 92 then [92, 92]
  else if c = 8 then [92, 98]
  else if c = 9 then [92, 116]
  else if c = 10 then [92, 110]
  else if c = 12 then [92, 102]
  else if c = 13 then [92, 114]
  else if c < 32 then [92, 117, 48, 48, hexDig (c / 16), hexDig (c % 16)]
  else [c]

def escapeJSON : List Nat → List Nat
  | [] => []
  | c :: rest => escapeJSONChar c ++ escapeJSON rest

/-- Value of a hexadecimal digit code point (either case). -/
def hexVal (c : Nat) : Option Nat :=
  if 48 ≤ c ∧ c ≤ 57 then some (c - 48)
  else if 97 ≤ c ∧ c ≤ 102 then some (c - 87)
  else if 65 ≤ c ∧ c ≤ 70 then some (c - 55)
  else none

/-- Parse the remainder of a JSON string literal (the part after the
opening quote), returning the decoded string and the input after the
closing quote. -/
def parseJSONString : List Nat → Option (List Nat × List Nat)
  | [] => none
  | c :: rest =>
    if c = 34 then some ([], rest)
    else if c = 92 then
      match rest with
      | [] => none
      | e :: rest2 =>
        if e = 34 ∨ e = 92 ∨ e = 47 then
          (parseJSONString rest2).map (fun p => (e :: p.1, p.2))
        else if e = 98 then (parseJSONString rest2).map (fun p => (8 :: p.1, p.2))
        else if e = 116 then (parseJSONString rest2).map (fun p => (9 :: p.1, p.2))
        else if e = 110 then (parseJSONString rest2).map (fun p => (10 :: p.1, p.2))
        else if e = 102 then (parseJSONString rest2).map (fun p => (12 :: p.1, p.2))
        else if e = 114 then (parseJSONString rest2).map (fun p => (13 :: p.1, p.2))
        else if e = 117 then
          match rest2 with
          | h1 :: h2 :: h3 :: h4 :: rest3 =>
            match hexVal h1, hexVal h2, hexVal h3, hexVal h4 with
            | some v1, some v2, some v3, some v4 =>
              (parseJSONString rest3).map
                (fun p => ((v1 * 4096 + v2 * 256 + v3 * 16 + v4) :: p.1, p.2))
            | _, _, _, _ => none
          | _ => none
        else none
    else (parseJSONString rest).map (fun p => (c :: p.1, p.2))

/-- One element of the serialized answers array: `null` or a string
literal, exactly as `JSON.stringify` prints the member. -/
def serAnswerItem : Option (List Nat) → List Nat
  | none => [110, 117, 108, 108]
  | some s => 34 :: (escapeJSON s ++ [34])

/-- Comma-separated tail of the serialized answers array, closing
bracket included. -/
def serAnswersRest : List (Option (List Nat)) → List Nat
  | [] => [93]
  | x :: xs => 44 :: (serAnswerItem x ++ serAnswersRest xs)

/-- The serialized answers array, brackets included, as
`JSON.stringify` prints an array (no whitespace). -/
def serAnswers : List (Option (List Nat)) → List Nat
  | [] => [91, 93]
  | x :: xs => 91 :: (serAnswerItem x ++ serAnswersRest xs)

/-- Parse one answers-array element. -/
def parseAnswerItem : List Nat → Option (Option (List Nat) × List Nat)
  | 110 :: 117 :: 108 :: 108 :: rest => some (none, rest)
  | 34 :: rest => (parseJSONString rest).map (fun p => (some p.1, p.2))
  | _ => none

/-- Parse the comma-separated tail of the answers array; the fuel bounds
the number of elements (one per recursion step). -/
def parseAnswersAux : Nat → List Nat → Option (List (Option (List Nat)) × List Nat)
  | _, 93 :: rest => some ([], rest)
  | Nat.succ fuel, 44 :: rest =>
    (parseAnswerItem rest).bind
      (fun pr => (parseAnswersAux fuel pr.2).map (fun p => (pr.1 :: p.1, p.2)))
  | _, _ => none

/-- Parse the whole answers array. -/
def parseAnswers : List Nat → Option (List (Option (List Nat)) × List Nat)
  | 91 :: 93 :: rest => some ([], rest)
  | 91 :: rest =>
    (parseAnswerItem rest).bind
      (fun pr => (parseAnswersAux pr.2.length pr.2).map (fun p => (pr.1 :: p.1, p.2)))
  | _ => none

/-- Literal `\x7b"v":1,"i":"` opening the payload object (the trailing
code point 34 is the opening quote of the `i` string). -/
def litHead : List Nat := [123, 34, 118, 34, 58, 49, 44, 34, 105, 34, 58, 34]

/-- Literal `,"d":"` between the `i` and `d` members. -/
def litD : List Nat := [44, 34, 100, 34, 58, 34]

/-- Literal `,"z":"` between the `d` and `z` members. -/
def litZ : List Nat := [44, 34, 122, 34, 58, 34]

/-- Literal `,"l":"` between the `z` and `l` members. -/
def litL : List Nat := [44, 34, 108, 34, 58, 34]

/-- Literal `,"a":` before the answers array. -/
def litA : List Nat := [44, 34, 97, 34, 58]

/-- `JSON.stringify` of the report payload built in `generateQR`:
member order v, i, d, z, l, a with v the literal 1. -/
def serializeReportPayload (p : ReportPayload) : List Nat :=
  litHead ++ escapeJSON p.i ++ [34] ++
  litD ++ escapeJSON p.d ++ [34] ++
  litZ ++ escapeJSON p.z ++ [34] ++
  litL ++ escapeJSON p.l ++ [34] ++
  litA ++ serAnswers p.a ++ [125]

/-- Consume an expected literal from the input. -/
def expectLit : List Nat → List Nat → Option (List Nat)
  | [], l => some l
  | _ :: _, [] => none
  | c :: cs, d :: ds => if d = c then expectLit cs ds else none

/-- Modelled from the spec: the decoder half of the report round-trip
(component `ReportView`, not among the sources) parses the exact JSON
shape the encoder emits and reconstructs the payload structure; a
malformed token yields `none`. -/
def parseReportPayload (s : List Nat) : Option ReportPayload :=
  (expectLit litHead s).bind (fun s1 =>
  (parseJSONString s1).bind (fun pi =>
  (expectLit litD pi.2).bind (fun s3 =>
  (parseJSONString s3).bind (fun pd =>
  (expectLit litZ pd.2).bind (fun s5 =>
  (parseJSONString s5).bind (fun pz =>
  (expectLit litL pz.2).bind (fun s7 =>
  (parseJSONString s7).bind (fun pl =>
  (expectLit litA pl.2).bind (fun s9 =>
  (parseAnswers s9).bind (fun pa =>
  if pa.2 = [125] then some ⟨pi.1, pd.1, pz.1, pl.1, pa.1⟩ else none))))))))))

/-- UTF-8 encoding of one scalar value, the byte sequence
`encodeURIComponent` percent-encodes. -/
def utf8EncodeChar (c : Nat) : List Nat :=
  if c < 128 then [c]
  else if c < 2048 then [192 + c / 64, 128 + c % 64]
  else if c < 65536 then [224 + c / 4096, 128 + (c / 64) % 64, 128 + c % 64]
  else [240 + c / 262144, 128 + (c / 4096) % 64, 128 + (c / 64) % 64, 128 + c % 64]

def utf8Encode : List Nat → List Nat
  | [] => []
  | c :: rest => utf8EncodeChar c ++ utf8Encode rest

/-- UTF-8 decoding of one character from the front of a byte list:
the lead byte selects the sequence length. -/
def utf8DecodeStep : List Nat → Option (Nat × List Nat)
  | [] => none
  | b :: rest =>
    if b < 128 then some (b, rest)
    else if b < 224 then
      match rest with
      | b2 :: rest2 => some ((b - 192) * 64 + (b2 - 128), rest2)
      | [] => none
    else if b < 240 then
      match rest with
      | b2 :: b3 :: rest3 =>
        some ((b - 224) * 4096 + (b2 - 128) * 64 + (b3 - 128), rest3)
      | _ => none
    else
      match rest with
      | b2 :: b3 :: b4 :: rest4 =>
        some ((b - 240) * 262144 + (b2 - 128) * 4096 + (b3 - 128) * 64 + (b4 - 128), rest4)
      | _ => none

/-- Decode characters until the bytes are exhausted; the fuel (at least
one unit per character) guarantees termination. -/
def utf8DecodeLoop : Nat → List Nat → Option (List Nat)
  | 0, l => if l = [] then some [] else none
  | Nat.succ fuel, l =>
    if l = [] then some []
    else (utf8DecodeStep l).bind
      (fun p => (utf8DecodeLoop fuel p.2).map (fun s => p.1 :: s))

/-- UTF-8 decoding of a byte list back to code points. -/
def utf8Decode (l : List Nat) : Option (List Nat) :=
  utf8DecodeLoop l.length l

/-- Base64 digit as a code point (the `btoa` alphabet). -/
def b64Char (n : Nat) : Nat :=
  if n < 26 then 65 + n
  else if n < 52 then 97 + (n - 26)
  else if n < 62 then 48 + (n - 52)
  else if n = 62 then 43
  else 47

/-- Inverse of the Base64 alphabet; 61 is the pad sign `=` and is not a
digit. -/
def b64Inv (c : Nat) : Option Nat :=
  if 65 ≤ c ∧ c ≤ 90 then some (c - 65)
  else if 97 ≤ c ∧ c ≤ 122 then some (26 + (c - 97))
  else if 48 ≤ c ∧ c ≤ 57 then some (52 + (c - 48))
  else if c = 43 then some 62
  else if c = 47 then some 63
  else none

/-- `btoa`: three bytes become four Base64 digits; one or two leftover
bytes are padded with `=`. -/
def base64Encode : List Nat → List Nat
  | [] => []
  | [b1] => [b64Char (b1 / 4), b64Char (b1 % 4 * 16), 61, 61]
  | [b1, b2] => [b64Char (b1 / 4), b64Char (b1 % 4 * 16 + b2 / 16), b64Char (b2 % 16 * 4), 61]
  | b1 :: b2 :: b3 :: rest =>
    b64Char (b1 / 4) :: b64Char (b1 % 4 * 16 + b2 / 16) ::
    b64Char (b2 % 16 * 4 + b3 / 64) :: b64Char (b3 % 64) :: base64Encode rest

/-- Decode one group of four Base64 characters from the front, honouring
the pad signs (which may only close the input). -/
def base64DecodeStep : List Nat → Option (List Nat × List Nat)
  | c1 :: c2 :: c3 :: c4 :: rest =>
    (match b64Inv c1, b64Inv c2 with
     | some v1, some v2 =>
       if c3 = 61 ∧ c4 = 61 ∧ rest = [] then some ([v1 * 4 + v2 / 16], [])
       else if c4 = 61 ∧ rest = [] then
         match b64Inv c3 with
         | some v3 => some ([v1 * 4 + v2 / 16, v2 % 16 * 16 + v3 / 4], [])
         | none => none
       else
         match b64Inv c3, b64Inv c4 with
         | some v3, some v4 =>
           some ([v1 * 4 + v2 / 16, v2 % 16 * 16 + v3 / 4, v3 % 4 * 64 + v4], rest)
         | _, _ => none
     | _, _ => none)
  | _ => none

/-- Decode groups until the characters are exhausted; the fuel (at least
one unit per group) guarantees termination. -/
def base64DecodeLoop : Nat → List Nat → Option (List Nat)
  | 0, l => if l = [] then some [] else none
  | Nat.succ fuel, l =>
    if l = [] then some []
    else (base64DecodeStep l).bind
      (fun p => (base64DecodeLoop fuel p.2).map (fun bs => p.1 ++ bs))

/-- `atob`: invert `base64Encode`, honouring the pad signs. -/
def base64Decode (l : List Nat) : Option (List Nat) :=
  base64DecodeLoop l.length l

/-- `unicodeSafeBtoa` from ResultScreen: `encodeURIComponent` followed by
percent-unescaping turns the string into its UTF-8 bytes, then `btoa`
Base64-encodes them. -/
def unicodeSafeBtoa (s : List Nat) : List Nat :=
  base64Encode (utf8Encode s)

/-- The full report token of `generateQR`: serialize the payload, then
`unicodeSafeBtoa`. -/
def encodeReport (p : ReportPayload) : List Nat :=
  unicodeSafeBtoa (serializeReportPayload p)

/-- Modelled from the spec: the decoder corresponding to `encodeReport`
(`ReportView` is not among the sources) — Base64 decode, UTF-8 decode,
then parse the payload. -/
def decodeReport (t : List Nat) : Option ReportPayload :=
  (base64Decode t).bind (fun bytes => (utf8Decode bytes).bind parseReportPayload)

theorem hexVal_hexDig (n : Nat) (h : n < 16) : hexVal (hexDig n) = some n := by
  unfold hexDig hexVal
  split_ifs <;> (congr 1; omega)

theorem parseJSONString_escape (s : List Nat) :
    ∀ rest, parseJSONString (escapeJSON s ++ (34 :: rest)) = some (s, rest) := by
  induction s with
  | nil =>
    intro rest
    show parseJSONString (34 :: rest) = some ([], rest)
    rw [parseJSONString.eq_def]
    simp
  | cons c s ih =>
    intro rest
    show parseJSONString ((escapeJSONChar c ++ escapeJSON s) ++ (34 :: rest)) = _
    rw [List.append_assoc]
    unfold escapeJSONChar
    split_ifs with h1 h2 h3 h4 h5 h6 h7 h8
    · subst h1; rw [parseJSONString.eq_def]; simp [ih]
    · subst h2; rw [parseJSONString.eq_def]; simp [ih]
    · subst h3; rw [parseJSONString.eq_def]; simp [ih]
    · subst h4; rw [parseJSONString.eq_def]; simp [ih]
    · subst h5; rw [parseJSONString.eq_def]; simp [ih]
    · subst h6; rw [parseJSONString.eq_def]; simp [ih]
    · subst h7; rw [parseJSONString.eq_def]; simp [ih]
    · have hc16 : c / 16 < 16 := by omega
      have hcm : c % 16 < 16 := by omega
      rw [parseJSONString.eq_def]
      have h48 : hexVal 48 = some 0 := by decide
      simp [hexVal_hexDig _ hc16, hexVal_hexDig _ hcm, h48, ih]
      omega
    · rw [parseJSONString.eq_def]
      simp [h1, h2, ih]

theorem parseAnswerItem_ser (x : Option (List Nat)) (tail : List Nat) :
    parseAnswerItem (serAnswerItem x ++ tail) = some (x, tail) := by
  cases x with
  | none =>
    show parseAnswerItem (110 :: 117 :: 108 :: 108 :: tail) = some (none, tail)
    rw [parseAnswerItem.eq_def]
  | some s =>
    show parseAnswerItem (34 :: ((escapeJSON s ++ [34]) ++ tail)) = some (some s, tail)
    rw [List.append_assoc]
    show parseAnswerItem (34 :: (escapeJSON s ++ (34 :: tail))) = some (some s, tail)
    rw [parseAnswerItem.eq_def]
    simp [parseJSONString_escape]

theorem serAnswersRest_length (xs : List (Option (List Nat))) :
    xs.length ≤ (serAnswersRest xs).length := by
  induction xs with
  | nil => simp [serAnswersRest]
  | cons x xs ih =>
    show xs.length + 1 ≤ (44 :: (serAnswerItem x ++ serAnswersRest xs)).length
    simp only [List.length_cons, List.length_append]
    omega

theorem parseAnswersAux_ser (xs : List (Option (List Nat))) :
    ∀ fuel rest, xs.length ≤ fuel →
      parseAnswersAux fuel (serAnswersRest xs ++ rest) = some (xs, rest) := by
  induction xs with
  | nil =>
    intro fuel rest _
    show parseAnswersAux fuel (93 :: rest) = some ([], rest)
    rw [parseAnswersAux.eq_def]
    cases fuel <;> rfl
  | cons x xs ih =>
    intro fuel rest hfuel
    have hfuel' : xs.length + 1 ≤ fuel := by
      simpa using hfuel
    cases fuel with
    | zero => omega
    | succ f =>
      show parseAnswersAux (f + 1) (44 :: ((serAnswerItem x ++ serAnswersRest xs) ++ rest))
        = some (x :: xs, rest)
      rw [List.append_assoc, parseAnswersAux.eq_def]
      simp [parseAnswerItem_ser]
      exact ih f rest (by omega)

theorem parseAnswers_ser (a : List (Option (List Nat))) (rest : List Nat) :
    parseAnswers (serAnswers a ++ rest) = some (a, rest) := by
  cases a with
  | nil =>
    show parseAnswers (91 :: 93 :: rest) = some ([], rest)
    rw [parseAnswers.eq_def]
  | cons x xs =>
    have hitem := parseAnswerItem_ser x (serAnswersRest xs ++ rest)
    have haux : parseAnswersAux ((serAnswersRest xs).length + rest.length)
        (serAnswersRest xs ++ rest) = some (xs, rest) :=
      parseAnswersAux_ser xs ((serAnswersRest xs).length + rest.length) rest
        (by have := serAnswersRest_length xs; omega)
    cases x with
    | none =>
      have hform : serAnswers (none :: xs) ++ rest =
          91 :: 110 :: 117 :: 108 :: 108 :: (serAnswersRest xs ++ rest) := by
        simp [serAnswers, serAnswerItem]
      rw [hform]
      show (parseAnswerItem (110 :: 117 :: 108 :: 108 :: (serAnswersRest xs ++ rest))).bind
        (fun pr => (parseAnswersAux pr.2.length pr.2).map (fun p => (pr.1 :: p.1, p.2)))
          = some (none :: xs, rest)
      have hitem2 : parseAnswerItem (110 :: 117 :: 108 :: 108 :: (serAnswersRest xs ++ rest))
          = some (none, serAnswersRest xs ++ rest) := hitem
      rw [hitem2]
      simp [haux]
    | some str =>
      have hform : serAnswers (some str :: xs) ++ rest =
          91 :: 34 :: ((escapeJSON str ++ [34]) ++ (serAnswersRest xs ++ rest)) := by
        simp [serAnswers, serAnswerItem, List.append_assoc]
      rw [hform]
      show (parseAnswerItem (34 :: ((escapeJSON str ++ [34]) ++ (serAnswersRest xs ++ rest)))).bind
        (fun pr => (parseAnswersAux pr.2.length pr.2).map (fun p => (pr.1 :: p.1, p.2)))
          = some (some str :: xs, rest)
      have hitem2 : parseAnswerItem (34 :: ((escapeJSON str ++ [34]) ++ (serAnswersRest xs ++ rest)))
          = some (some str, serAnswersRest xs ++ rest) := hitem
      rw [hitem2]
      simp [haux]

theorem expectLit_append (lit : List Nat) :
    ∀ rest, expectLit lit (lit ++ rest) = some rest := by
  induction lit with
  | nil => intro rest; rfl
  | cons c cs ih =>
    intro rest
    show expectLit (c :: cs) (c :: (cs ++ rest)) = some rest
    rw [expectLit.eq_def]
    simp [ih]

theorem parseReportPayload_serialize (p : ReportPayload) :
    parseReportPayload (serializeReportPayload p) = some p := by
  have hser : serializeReportPayload p =
      litHead ++ (escapeJSON p.i ++ (34 ::
      (litD ++ (escapeJSON p.d ++ (34 ::
      (litZ ++ (escapeJSON p.z ++ (34 ::
      (litL ++ (escapeJSON p.l ++ (34 ::
      (litA ++ (serAnswers p.a ++ [125]))))))))))))) := by
    unfold serializeReportPayload
    simp [List.append_assoc]
  rw [parseReportPayload, hser]
  simp only [expectLit_append, parseJSONString_escape, parseAnswers_ser, Option.some_bind]
  simp

theorem utf8EncodeChar_ne_nil (c : Nat) : utf8EncodeChar c ≠ [] := by
  unfold utf8EncodeChar
  split_ifs <;> simp

theorem utf8DecodeStep_encodeChar (c : Nat) (hc : c < 1114112) (rest : List Nat) :
    utf8DecodeStep (utf8EncodeChar c ++ rest) = some (c, rest) := by
  unfold utf8EncodeChar
  split_ifs with h1 h2 h3
  · show utf8DecodeStep (c :: rest) = some (c, rest)
    unfold utf8DecodeStep
    simp [h1]
  · show utf8DecodeStep ((192 + c / 64) :: (128 + c % 64) :: rest) = some (c, rest)
    unfold utf8DecodeStep
    have ha : ¬ 192 + c / 64 < 128 := by omega
    have hb : 192 + c / 64 < 224 := by omega
    simp [ha, hb]
    omega
  · show utf8DecodeStep ((224 + c / 4096) :: (128 + c / 64 % 64) :: (128 + c % 64) :: rest)
      = some (c, rest)
    unfold utf8DecodeStep
    have ha : ¬ 224 + c / 4096 < 128 := by omega
    have hb : ¬ 224 + c / 4096 < 224 := by omega
    have hd : 224 + c / 4096 < 240 := by omega
    simp [ha, hb, hd]
    omega
  · show utf8DecodeStep ((240 + c / 262144) :: (128 + c / 4096 % 64) :: (128 + c / 64 % 64) ::
      (128 + c % 64) :: rest) = some (c, rest)
    unfold utf8DecodeStep
    have ha : ¬ 240 + c / 262144 < 128 := by omega
    have hb : ¬ 240 + c / 262144 < 224 := by omega
    have hd : ¬ 240 + c / 262144 < 240 := by omega
    simp [ha, hb, hd]
    omega

theorem utf8DecodeLoop_encode (s : List Nat) :
    ∀ fuel, s.length ≤ fuel → validJString s →
      utf8DecodeLoop fuel (utf8Encode s) = some s := by
  induction s with
  | nil =>
    intro fuel _ _
    show utf8DecodeLoop fuel [] = some []
    cases fuel <;> simp [utf8DecodeLoop]
  | cons c s ih =>
    intro fuel hlen hv
    have hc : c < 1114112 := (hv c (by simp)).1
    cases fuel with
    | zero => simp at hlen
    | succ f =>
      show utf8DecodeLoop (f + 1) (utf8EncodeChar c ++ utf8Encode s) = some (c :: s)
      rw [utf8DecodeLoop]
      have hne : ¬ (utf8EncodeChar c ++ utf8Encode s = []) := by
        simp [utf8EncodeChar_ne_nil c]
      rw [if_neg hne, utf8DecodeStep_encodeChar c hc]
      have hih := ih f (by simpa using Nat.lt_succ_iff.mp (Nat.lt_of_lt_of_le
        (by simp) hlen)) (fun x hx => hv x (by simp [hx]))
      simp [hih]

theorem utf8Encode_length (s : List Nat) : s.length ≤ (utf8Encode s).length := by
  induction s with
  | nil => simp [utf8Encode]
  | cons c s ih =>
    show (c :: s).length ≤ (utf8EncodeChar c ++ utf8Encode s).length
    have h1 : 1 ≤ (utf8EncodeChar c).length := by
      rcases hne : utf8EncodeChar c with _ | ⟨b, l⟩
      · exact absurd hne (utf8EncodeChar_ne_nil c)
      · simp
    simp only [List.length_cons, List.length_append]
    omega

theorem utf8Decode_encode (s : List Nat) (hs : validJString s) :
    utf8Decode (utf8Encode s) = some s := by
  unfold utf8Decode
  exact utf8DecodeLoop_encode s (utf8Encode s).length (utf8Encode_length s) hs

/-- All bytes of a byte list are below 256. -/
abbrev validBytes (bs : List Nat) : Prop := ∀ b ∈ bs, b < 256

theorem utf8EncodeChar_bytes (c : Nat) (hc : c < 1114112) :
    validBytes (utf8EncodeChar c) := by
  unfold utf8EncodeChar
  split_ifs with h1 h2 h3 <;> intro b hb <;> simp at hb <;> omega

theorem utf8Encode_bytes (s : List Nat) (hs : validJString s) :
    validBytes (utf8Encode s) := by
  induction s with
  | nil => intro b hb; simp [utf8Encode] at hb
  | cons c s ih =>
    intro b hb
    have hmem : b ∈ utf8EncodeChar c ++ utf8Encode s := hb
    rcases List.mem_append.mp hmem with h | h
    · exact utf8EncodeChar_bytes c (hs c (by simp)).1 b h
    · exact ih (fun x hx => hs x (by simp [hx])) b h

set_option maxRecDepth 4000 in
theorem b64Inv_b64Char (n : Nat) (h : n < 64) : b64Inv (b64Char n) = some n := by
  unfold b64Char b64Inv
  split_ifs <;> (congr 1; omega)

theorem b64Char_ne_61 (n : Nat) (h : n < 64) : b64Char n ≠ 61 := by
  unfold b64Char
  split_ifs <;> omega

theorem base64DecodeStep_one (b1 : Nat) (h1 : b1 < 256) :
    base64DecodeStep [b64Char (b1 / 4), b64Char (b1 % 4 * 16), 61, 61] = some ([b1], []) := by
  unfold base64DecodeStep
  simp [b64Inv_b64Char (b1 / 4) (by omega), b64Inv_b64Char (b1 % 4 * 16) (by omega)]
  omega

theorem base64DecodeStep_two (b1 b2 : Nat) (h1 : b1 < 256) (h2 : b2 < 256) :
    base64DecodeStep [b64Char (b1 / 4), b64Char (b1 % 4 * 16 + b2 / 16),
      b64Char (b2 % 16 * 4), 61] = some ([b1, b2], []) := by
  unfold base64DecodeStep
  simp [b64Inv_b64Char (b1 / 4) (by omega), b64Inv_b64Char (b1 % 4 * 16 + b2 / 16) (by omega),
    b64Inv_b64Char (b2 % 16 * 4) (by omega), b64Char_ne_61 (b2 % 16 * 4) (by omega)]
  omega

theorem base64DecodeStep_three (b1 b2 b3 : Nat) (h1 : b1 < 256) (h2 : b2 < 256)
    (h3 : b3 < 256) (rest : List Nat) :
    base64DecodeStep (b64Char (b1 / 4) :: b64Char (b1 % 4 * 16 + b2 / 16) ::
      b64Char (b2 % 16 * 4 + b3 / 64) :: b64Char (b3 % 64) :: rest)
      = some ([b1, b2, b3], rest) := by
  unfold base64DecodeStep
  simp [b64Inv_b64Char (b1 / 4) (by omega), b64Inv_b64Char (b1 % 4 * 16 + b2 / 16) (by omega),
    b64Inv_b64Char (b2 % 16 * 4 + b3 / 64) (by omega), b64Inv_b64Char (b3 % 64) (by omega),
    b64Char_ne_61 (b2 % 16 * 4 + b3 / 64) (by omega), b64Char_ne_61 (b3 % 64) (by omega)]
  omega

theorem base64DecodeLoop_nil (fuel : Nat) : base64DecodeLoop fuel [] = some [] := by
  cases fuel <;> simp [base64DecodeLoop]

theorem base64Encode_ne_nil (b : Nat) (bs : List Nat) : base64Encode (b :: bs) ≠ [] := by
  rcases bs with _ | ⟨b2, bs2⟩
  · simp [base64Encode]
  · rcases bs2 with _ | ⟨b3, bs3⟩ <;> simp [base64Encode]

theorem base64DecodeLoop_encode :
    ∀ n bs fuel, bs.length ≤ n → bs.length ≤ fuel → validBytes bs →
      base64DecodeLoop fuel (base64Encode bs) = some bs := by
  intro n
  induction n with
  | zero =>
    intro bs fuel hn _ _
    have : bs = [] := by
      cases bs with
      | nil => rfl
      | cons b l => simp at hn
    subst this
    exact base64DecodeLoop_nil fuel
  | succ n ih =>
    intro bs fuel hn hfuel hv
    match bs with
    | [] => exact base64DecodeLoop_nil fuel
    | [b1] =>
      have hb1 : b1 < 256 := hv b1 (by simp)
      cases fuel with
      | zero => simp at hfuel
      | succ f =>
        show base64DecodeLoop (f + 1)
          [b64Char (b1 / 4), b64Char (b1 % 4 * 16), 61, 61] = some [b1]
        rw [base64DecodeLoop]
        rw [if_neg (by simp), base64DecodeStep_one b1 hb1]
        simp [base64DecodeLoop_nil]
    | [b1, b2] =>
      have hb1 : b1 < 256 := hv b1 (by simp)
      have hb2 : b2 < 256 := hv b2 (by simp)
      cases fuel with
      | zero => simp at hfuel
      | succ f =>
        show base64DecodeLoop (f + 1) [b64Char (b1 / 4), b64Char (b1 % 4 * 16 + b2 / 16),
          b64Char (b2 % 16 * 4), 61] = some [b1, b2]
        rw [base64DecodeLoop]
        rw [if_neg (by simp), base64DecodeStep_two b1 b2 hb1 hb2]
        simp [base64DecodeLoop_nil]
    | b1 :: b2 :: b3 :: rest =>
      have hb1 : b1 < 256 := hv b1 (by simp)
      have hb2 : b2 < 256 := hv b2 (by simp)
      have hb3 : b3 < 256 := hv b3 (by simp)
      have hrest : validBytes rest := fun x hx => hv x (by simp [hx])
      cases fuel with
      | zero => simp at hfuel
      | succ f =>
        show base64DecodeLoop (f + 1) (b64Char (b1 / 4) ::
          b64Char (b1 % 4 * 16 + b2 / 16) :: b64Char (b2 % 16 * 4 + b3 / 64) ::
          b64Char (b3 % 64) :: base64Encode rest) = some (b1 :: b2 :: b3 :: rest)
        rw [base64DecodeLoop]
        rw [if_neg (by simp), base64DecodeStep_three b1 b2 b3 hb1 hb2 hb3]
        have hn' : rest.length ≤ n := by
          simp at hn
          omega
        have hf' : rest.length ≤ f := by
          simp at hfuel
          omega
        simp [ih rest f hn' hf' hrest]

theorem base64Encode_length (bs : List Nat) : bs.length ≤ (base64Encode bs).length := by
  have hgen : ∀ n bs, List.length bs ≤ n → List.length bs ≤ (base64Encode bs).length := by
    intro n
    induction n with
    | zero =>
      intro bs h
      cases bs with
      | nil => simp [base64Encode]
      | cons b l => simp at h
    | succ n ih =>
      intro bs h
      match bs with
      | [] => simp [base64Encode]
      | [b1] => simp [base64Encode]
      | [b1, b2] => simp [base64Encode]
      | b1 :: b2 :: b3 :: rest =>
        have := ih rest (by simp at h; omega)
        show rest.length + 3 ≤ (b64Char (b1 / 4) :: b64Char (b1 % 4 * 16 + b2 / 16) ::
          b64Char (b2 % 16 * 4 + b3 / 64) :: b64Char (b3 % 64) ::
          base64Encode rest).length
        simp only [List.length_cons]
        omega
  exact hgen bs.length bs (le_refl _)

theorem base64Decode_encode (bs : List Nat) (hv : validBytes bs) :
    base64Decode (base64Encode bs) = some bs := by
  unfold base64Decode
  exact base64DecodeLoop_encode bs.length bs (base64Encode bs).length (le_refl _)
    (le_trans (base64Encode_length bs) (le_refl _)) hv

theorem validJString_append (a b : List Nat) (ha : validJString a) (hb : validJString b) :
    validJString (a ++ b) := by
  intro c hc
  rcases List.mem_append.mp hc with h | h
  · exact ha c h
  · exact hb c h

theorem escapeJSONChar_valid (c : Nat) (hc : isScalarCP c) :
    validJString (escapeJSONChar c) := by
  unfold escapeJSONChar
  unfold hexDig
  split_ifs <;> intro x hx <;> simp at hx <;>
    first
      | (unfold isScalarCP; omega)
      | (rcases hx with hx | hx <;> unfold isScalarCP <;> omega)
      | (rcases hx with hx | hx | hx | hx | hx | hx <;> unfold isScalarCP <;> omega)
      | (subst hx; exact hc)

theorem escapeJSON_valid (s : List Nat) (hs : validJString s) :
    validJString (escapeJSON s) := by
  induction s with
  | nil => intro x hx; simp [escapeJSON] at hx
  | cons c s ih =>
    show validJString (escapeJSONChar c ++ escapeJSON s)
    exact validJString_append _ _
      (escapeJSONChar_valid c (hs c (by simp)))
      (ih (fun x hx => hs x (by simp [hx])))

theorem serAnswerItem_valid (x : Option (List Nat)) (hx : ∀ t ∈ x, validJString t) :
    validJString (serAnswerItem x) := by
  cases x with
  | none => intro c hc; simp [serAnswerItem] at hc; unfold isScalarCP; omega
  | some s =>
    show validJString (34 :: (escapeJSON s ++ [34]))
    intro c hc
    rcases List.mem_cons.mp hc with h34 | hc
    · subst h34; unfold isScalarCP; omega
    · rcases List.mem_append.mp hc with h | h
      · exact escapeJSON_valid s (hx s rfl) c h
      · simp at h; subst h; unfold isScalarCP; omega

theorem serAnswersRest_valid (xs : List (Option (List Nat)))
    (hxs : ∀ s ∈ xs, ∀ t ∈ s, validJString t) :
    validJString (serAnswersRest xs) := by
  induction xs with
  | nil => intro c hc; simp [serAnswersRest] at hc; subst hc; unfold isScalarCP; omega
  | cons x xs ih =>
    show validJString (44 :: (serAnswerItem x ++ serAnswersRest xs))
    intro c hc
    rcases List.mem_cons.mp hc with h44 | hc
    · subst h44; unfold isScalarCP; omega
    · rcases List.mem_append.mp hc with h | h
      · exact serAnswerItem_valid x (hxs x (by simp)) c h
      · exact ih (fun s hs => hxs s (by simp [hs])) c h

theorem serAnswers_valid (a : List (Option (List Nat)))
    (ha : ∀ s ∈ a, ∀ t ∈ s, validJString t) :
    validJString (serAnswers a) := by
  cases a with
  | nil => intro c hc; simp [serAnswers] at hc; rcases hc with hc | hc <;>
      subst hc <;> unfold isScalarCP <;> omega
  | cons x xs =>
    show validJString (91 :: (serAnswerItem x ++ serAnswersRest xs))
    intro c hc
    rcases List.mem_cons.mp hc with h91 | hc
    · subst h91; unfold isScalarCP; omega
    · rcases List.mem_append.mp hc with h | h
      · exact serAnswerItem_valid x (ha x (by simp)) c h
      · exact serAnswersRest_valid xs (fun s hs => ha s (by simp [hs])) c h

theorem serializeReportPayload_valid (p : ReportPayload) (hp : validPayload p) :
    validJString (serializeReportPayload p) := by
  obtain ⟨hi, hd, hz, hl, ha⟩ := hp
  unfold serializeReportPayload
  refine validJString_append _ _ ?_ (by decide)
  refine validJString_append _ _ ?_ (serAnswers_valid _ ha)
  refine validJString_append _ _ ?_ (by decide)
  refine validJString_append _ _ ?_ (by decide)
  refine validJString_append _ _ ?_ (escapeJSON_valid _ hl)
  refine validJString_append _ _ ?_ (by decide)
  refine validJString_append _ _ ?_ (by decide)
  refine validJString_append _ _ ?_ (escapeJSON_valid _ hz)
  refine validJString_append _ _ ?_ (by decide)
  refine validJString_append _ _ ?_ (by decide)
  refine validJString_append _ _ ?_ (escapeJSON_valid _ hd)
  refine validJString_append _ _ ?_ (by decide)
  refine validJString_append _ _ ?_ (by decide)
  refine validJString_append _ _ ?_ (escapeJSON_valid _ hi)
  exact (by decide)

/-- C9: decoding the encoded report token reconstructs exactly the same
payload structure — version, code, timestamp, zone, language, ordered
answer values — for every payload whose strings are valid JS strings,
non-ASCII (e.g. Tamil) content included. -/
theorem report_roundtrip (p : ReportPayload) (hp : validPayload p) :
    decodeReport (encodeReport p) = some p := by
  have hser := serializeReportPayload_valid p hp
  have hbytes : validBytes (utf8Encode (serializeReportPayload p)) :=
    utf8Encode_bytes _ hser
  unfold decodeReport encodeReport unicodeSafeBtoa
  rw [base64Decode_encode _ hbytes]
  simp only [Option.some_bind]
  rw [utf8Decode_encode _ hser]
  simp only [Option.some_bind]
  exact parseReportPayload_serialize p

/-- Payload used in the C9 witness: a Tamil answer value (the word
"தமிழ்"), a missing answer, and an answer containing a quote, a
backslash, a newline and another control character. -/
def demoPayload : ReportPayload :=
  { i := [75, 78, 45, 65, 77, 66, 69, 82]
    d := [50, 48, 50, 54, 45, 48, 49, 45, 48, 49]
    z := [65, 77, 66, 69, 82]
    l := [116, 97]
    a := [some [2980, 2990, 3007, 2996, 3021], none, some [34, 92, 10, 7]] }

/-- Witness for C9: the round-trip evaluated on `demoPayload`. -/
theorem report_roundtrip_witness :
    validPayload demoPayload ∧ decodeReport (encodeReport demoPayload) = some demoPayload :=
  ⟨by decide, report_roundtrip demoPayload (by decide)⟩

end KauveryNalam
